import Mathlib

/-!
Verification of the w3protocol access-capability layer: the
`access/authorize`, `access/confirm` and `access/delegate` derivation rules,
the session-confirmation workflow, space delegations (recovery and
authorization), the BIP39 mnemonic round trip for space keys, and the
in-memory driver.
-/

set_option linter.unreachableTactic false
set_option linter.unusedTactic false
set_option linter.unnecessarySeqFocus false

namespace W3

/-- Result of a `derives` check: the JS code returns `true` on success or a
`Failure` value carrying a message. -/
inductive Res where
  | ok : Res
  | failure (message : String) : Res
deriving DecidableEq, Repr

/-- Models the `fail(x) || rest` idiom of the source: `fail` maps `true` to
`undefined`, so a `Failure` short-circuits the `||` chain while a passing
check falls through to the next one. -/
def orFail : Res → Res → Res
  | Res.ok, r => r
  | Res.failure m, _ => Res.failure m

/-- Modelled from the spec: the `equalWith` helper of `./utils.js` is not
under `src/` (only its callers in the capability definitions are); the spec
states that claim.resource must literally equal proof.resource, failing
otherwise, since delegation cannot change the resource a capability is scoped
to. The failure message text is not given by the spec, so a fixed message is
used; no claim inspects it. -/
def equalWith (childWith parentWith : String) : Res :=
  if childWith = parentWith then Res.ok
  else Res.failure ("unauthorized: with mismatch")

/-- Modelled from the spec: the `equal` helper of `./utils.js` is not under
`src/`; it checks that a claimed `nb` field (`iss`, `aud`) equals the proven
one, failing on mismatch. In the schemas used here the compared fields are
required, so the undefined-parent case of the JS helper cannot arise. -/
def equalField (child parent field : String) : Res :=
  if child = parent then Res.ok
  else Res.failure ("unauthorized: " ++ field ++ " mismatch")

/-- `CapabilityRequest` schema: one requested capability; `can` set to `"*"`
corresponds to sudo access. -/
structure CapabilityRequest where
  can : String
deriving DecidableEq, Repr

/-- `AuthorizationRequest` schema, the `nb` of `access/authorize`: account
DID `iss` and requested capabilities `att`. -/
structure AuthorizationRequest where
  iss : String
  att : List CapabilityRequest
deriving DecidableEq, Repr

/-- An `access/authorize` capability: `wth` models the `with` field (a
did:key DID), `nb` the authorization request. -/
structure AuthorizeCap where
  wth : String
  nb : AuthorizationRequest
deriving DecidableEq, Repr

/-- The `nb` of `access/confirm`: account `iss`, audience `aud`, requested
capabilities `att`. -/
structure ConfirmNb where
  iss : String
  aud : String
  att : List CapabilityRequest
deriving DecidableEq, Repr

/-- An `access/confirm` capability. -/
structure ConfirmCap where
  wth : String
  nb : ConfirmNb
deriving DecidableEq, Repr

/-- The `nb` of `access/delegate`: `delegations` is a dictionary whose values
are Links, modelled as an ordered key/value list (`Object.values` order);
`none` models an absent field, which the code guards with `|| {}`. Links are
modelled by their string form, matching the `d.toString()` comparison in the
source. -/
structure DelegateNb where
  delegations : Option (List (String × String))
deriving DecidableEq, Repr

/-- An `access/delegate` capability. -/
structure DelegateCap where
  wth : String
  nb : DelegateNb
deriving DecidableEq, Repr

/-- JS `Set.prototype.add`: appends the element unless already present (JS
sets are insertion-ordered and de-duplicated). -/
def setAdd (s : List String) (e : String) : List String :=
  if e ∈ s then s else s ++ [e]

/-- `setDifference(minuend, subtrahend)` from the source: iterates the
minuend and collects, in first-occurrence order and without duplicates, the
elements not present in the subtrahend. -/
def setDifference (minuend subtrahend : List String) : List String :=
  minuend.foldl (fun difference e => if e ∈ subtrahend then difference else setAdd difference e) []

/-- `delegatedCids` from the source: the string forms of the Link values of
`capability.nb.delegations`, in `Object.values` order. -/
def delegatedCids (cap : DelegateCap) : List String :=
  (cap.nb.delegations.getD []).map Prod.snd

/-- `subsetsNbDelegations(claim, proof)` from the source: ok iff the claimed
delegation set is contained in the proven one, otherwise a Failure listing
the missing Links. -/
def subsetsNbDelegations (claim pf : DelegateCap) : Res :=
  let missingProofs := setDifference (delegatedCids claim) (delegatedCids pf)
  if missingProofs.length > 0 then
    Res.failure ("unauthorized nb.delegations " ++ String.intercalate (", ") missingProofs)
  else
    Res.ok

/-- `subsetCapabilities(claim, proof)` from the source: everything is allowed
when the proof contains the universal `"*"`; otherwise the escalated
abilities are the claimed `can`s missing from the allowed set, and any
escalation is a Failure naming them. -/
def subsetCapabilities (claim pf : List CapabilityRequest) : Res :=
  let allowed := pf.map (fun p => p.can)
  if ("*") ∈ allowed then
    Res.ok
  else
    let escalated := setDifference (claim.map (fun c => c.can)) allowed
    if escalated.length > 0 then
      Res.failure ("unauthorized nb.att.can " ++ String.intercalate (", ") escalated)
    else
      Res.ok

/-- The `derives` rule of the `access/authorize` capability from the source:
`fail(equalWith(child, parent)) || fail(equal(child.nb.iss, parent.nb.iss,
'iss')) || fail(subsetCapabilities(child.nb.att, parent.nb.att)) || true`. -/
def authorizeDerives (child parent : AuthorizeCap) : Res :=
  orFail (equalWith child.wth parent.wth)
    (orFail (equalField child.nb.iss parent.nb.iss ("iss"))
      (orFail (subsetCapabilities child.nb.att parent.nb.att) Res.ok))

/-- The `derives` rule of the `access/confirm` capability from the source:
like `access/authorize` with an additional `nb.aud` equality check. -/
def confirmDerives (claim pf : ConfirmCap) : Res :=
  orFail (equalWith claim.wth pf.wth)
    (orFail (equalField claim.nb.iss pf.nb.iss ("iss"))
      (orFail (equalField claim.nb.aud pf.nb.aud ("aud"))
        (orFail (subsetCapabilities claim.nb.att pf.nb.att) Res.ok)))

/-- The `derives` rule of the `access/delegate` capability from the source:
`fail(equalWith(claim, proof)) || fail(subsetsNbDelegations(claim, proof)) ||
true`. -/
def delegateDerives (claim pf : DelegateCap) : Res :=
  orFail (equalWith claim.wth pf.wth)
    (orFail (subsetsNbDelegations claim pf) Res.ok)

theorem mem_setAdd {s : List String} {e x : String} :
    x ∈ setAdd s e ↔ x ∈ s ∨ x = e := by
  unfold setAdd
  split <;> rename_i h
  · constructor
    · exact Or.inl
    · rintro (hx | rfl)
      · exact hx
      · exact h
  · simp

theorem mem_setDifference_foldl (s : List String) (l acc : List String) (x : String) :
    x ∈ l.foldl (fun difference e => if e ∈ s then difference else setAdd difference e) acc ↔
      x ∈ acc ∨ (x ∈ l ∧ x ∉ s) := by
  induction l generalizing acc with
  | nil => simp
  | cons a l ih =>
    simp only [List.foldl_cons]
    rw [ih]
    by_cases ha : a ∈ s <;> by_cases hx : x = a <;>
      simp [ha, mem_setAdd, hx] <;> tauto

theorem mem_setDifference {l s : List String} {x : String} :
    x ∈ setDifference l s ↔ x ∈ l ∧ x ∉ s := by
  unfold setDifference
  rw [mem_setDifference_foldl]
  simp

theorem setDifference_eq_nil_iff {l s : List String} :
    setDifference l s = [] ↔ ∀ x ∈ l, x ∈ s := by
  constructor
  · intro h x hx
    by_contra hxs
    have hmem : x ∈ setDifference l s := mem_setDifference.mpr ⟨hx, hxs⟩
    rw [h] at hmem
    exact (List.not_mem_nil x) hmem
  · intro h
    rw [List.eq_nil_iff_forall_not_mem]
    intro x hx
    rw [mem_setDifference] at hx
    exact hx.2 (h x hx.1)

theorem subsetsNbDelegations_eq (claim pf : DelegateCap) :
    subsetsNbDelegations claim pf =
      if setDifference (delegatedCids claim) (delegatedCids pf) = [] then Res.ok
      else
        Res.failure ("unauthorized nb.delegations " ++
          String.intercalate (", ")
            (setDifference (delegatedCids claim) (delegatedCids pf))) := by
  unfold subsetsNbDelegations
  by_cases h : setDifference (delegatedCids claim) (delegatedCids pf) = []
  · simp [h]
  · have hlen : 0 < (setDifference (delegatedCids claim) (delegatedCids pf)).length :=
      List.length_pos.mpr h
    simp [h, hlen]

theorem subsetsNbDelegations_spec (claim pf : DelegateCap) :
    (subsetsNbDelegations claim pf = Res.ok ↔
      ∀ x ∈ delegatedCids claim, x ∈ delegatedCids pf) ∧
    ((¬ ∀ x ∈ delegatedCids claim, x ∈ delegatedCids pf) →
      subsetsNbDelegations claim pf =
        Res.failure ("unauthorized nb.delegations " ++
          String.intercalate (", ")
            (setDifference (delegatedCids claim) (delegatedCids pf)))) := by
  rw [subsetsNbDelegations_eq]
  by_cases hsub : ∀ x ∈ delegatedCids claim, x ∈ delegatedCids pf
  · have hnil : setDifference (delegatedCids claim) (delegatedCids pf) = [] :=
      setDifference_eq_nil_iff.mpr hsub
    rw [if_pos hnil]
    exact ⟨⟨fun _ => hsub, fun _ => rfl⟩, fun h => absurd hsub h⟩
  · have hnenil : setDifference (delegatedCids claim) (delegatedCids pf) ≠ [] := by
      intro h
      exact hsub (setDifference_eq_nil_iff.mp h)
    rw [if_neg hnenil]
    refine ⟨⟨fun h => absurd h (by simp), fun h => absurd h hsub⟩, fun _ => rfl⟩

theorem subsetCapabilities_eq (claim pf : List CapabilityRequest) :
    subsetCapabilities claim pf =
      if ("*") ∈ pf.map (fun p => p.can) then Res.ok
      else if setDifference (claim.map (fun c => c.can)) (pf.map (fun p => p.can)) = [] then
        Res.ok
      else
        Res.failure ("unauthorized nb.att.can " ++
          String.intercalate (", ")
            (setDifference (claim.map (fun c => c.can)) (pf.map (fun p => p.can)))) := by
  unfold subsetCapabilities
  by_cases hstar : ("*") ∈ pf.map (fun p => p.can)
  · simp [hstar]
  · rw [if_neg hstar, if_neg hstar]
    by_cases h : setDifference (claim.map (fun c => c.can)) (pf.map (fun p => p.can)) = []
    · simp [h]
    · have hlen :
          0 < (setDifference (claim.map (fun c => c.can)) (pf.map (fun p => p.can))).length :=
        List.length_pos.mpr h
      simp [h, hlen]

theorem subsetCapabilities_spec (claim pf : List CapabilityRequest) :
    (("*") ∈ pf.map (fun p => p.can) → subsetCapabilities claim pf = Res.ok) ∧
    (("*") ∉ pf.map (fun p => p.can) →
      (subsetCapabilities claim pf = Res.ok ↔
        ∀ a ∈ claim.map (fun c => c.can), a ∈ pf.map (fun p => p.can)) ∧
      ((¬ ∀ a ∈ claim.map (fun c => c.can), a ∈ pf.map (fun p => p.can)) →
        subsetCapabilities claim pf =
          Res.failure ("unauthorized nb.att.can " ++
            String.intercalate (", ")
              (setDifference (claim.map (fun c => c.can)) (pf.map (fun p => p.can)))))) := by
  rw [subsetCapabilities_eq]
  by_cases hstar : ("*") ∈ pf.map (fun p => p.can)
  · rw [if_pos hstar]
    exact ⟨fun _ => rfl, fun h => absurd hstar h⟩
  · rw [if_neg hstar]
    refine ⟨fun h => absurd h hstar, fun _ => ?_⟩
    by_cases hsub : ∀ a ∈ claim.map (fun c => c.can), a ∈ pf.map (fun p => p.can)
    · have hnil : setDifference (claim.map (fun c => c.can)) (pf.map (fun p => p.can)) = [] :=
        setDifference_eq_nil_iff.mpr hsub
      rw [if_pos hnil]
      exact ⟨⟨fun _ => hsub, fun _ => rfl⟩, fun h => absurd hsub h⟩
    · have hnenil :
          setDifference (claim.map (fun c => c.can)) (pf.map (fun p => p.can)) ≠ [] := by
        intro h
        exact hsub (setDifference_eq_nil_iff.mp h)
      rw [if_neg hnenil]
      refine ⟨⟨fun h => absurd h (by simp), fun h => absurd h hsub⟩, fun _ => rfl⟩

theorem orFail_ok_left (r : Res) : orFail Res.ok r = r := rfl

theorem orFail_ok_right (r : Res) : orFail r Res.ok = r := by
  cases r <;> rfl

theorem orFail_failure (m : String) (r : Res) : orFail (Res.failure m) r = Res.failure m := rfl

theorem equalWith_of_eq {a b : String} (h : a = b) : equalWith a b = Res.ok := by
  unfold equalWith
  rw [if_pos h]

theorem equalWith_of_ne {a b : String} (h : a ≠ b) :
    equalWith a b = Res.failure ("unauthorized: with mismatch") := by
  unfold equalWith
  rw [if_neg h]

theorem equalField_of_eq {a b f : String} (h : a = b) : equalField a b f = Res.ok := by
  unfold equalField
  rw [if_pos h]

/-- With equal `with` and `nb.iss`, the `access/authorize` derivation reduces
to the requested-abilities check. -/
theorem authorizeDerives_reduce (c p : AuthorizeCap) (hw : c.wth = p.wth)
    (hi : c.nb.iss = p.nb.iss) :
    authorizeDerives c p = subsetCapabilities c.nb.att p.nb.att := by
  unfold authorizeDerives
  rw [equalWith_of_eq hw, equalField_of_eq hi, orFail_ok_left, orFail_ok_left, orFail_ok_right]

/-- With equal `with`, `nb.iss` and `nb.aud`, the `access/confirm` derivation
reduces to the requested-abilities check. -/
theorem confirmDerives_reduce (c p : ConfirmCap) (hw : c.wth = p.wth)
    (hi : c.nb.iss = p.nb.iss) (ha : c.nb.aud = p.nb.aud) :
    confirmDerives c p = subsetCapabilities c.nb.att p.nb.att := by
  unfold confirmDerives
  rw [equalWith_of_eq hw, equalField_of_eq hi, equalField_of_eq ha,
    orFail_ok_left, orFail_ok_left, orFail_ok_left, orFail_ok_right]

/-- Claim C1: for every pair of access/delegate capabilities whose `with`
resources are equal, `derives(claim, proof)` succeeds iff the set of
delegation Links listed in claim.nb.delegations (compared as strings) is a
subset of those listed in proof.nb.delegations; when the claim's set contains
Links missing from the proof's set, it fails with a Failure whose message
names exactly the missing (escalated) Links. -/
theorem C1_delegate_derives_subset (claim pf : DelegateCap)
    (hw : claim.wth = pf.wth) :
    (delegateDerives claim pf = Res.ok ↔
      ∀ x ∈ delegatedCids claim, x ∈ delegatedCids pf) ∧
    ((¬ ∀ x ∈ delegatedCids claim, x ∈ delegatedCids pf) →
      delegateDerives claim pf =
        Res.failure ("unauthorized nb.delegations " ++
          String.intercalate (", ")
            (setDifference (delegatedCids claim) (delegatedCids pf)))) ∧
    (∀ x, x ∈ setDifference (delegatedCids claim) (delegatedCids pf) ↔
      x ∈ delegatedCids claim ∧ x ∉ delegatedCids pf) := by
  have hred : delegateDerives claim pf = subsetsNbDelegations claim pf := by
    unfold delegateDerives
    rw [equalWith_of_eq hw, orFail_ok_left, orFail_ok_right]
  rw [hred]
  exact ⟨(subsetsNbDelegations_spec claim pf).1, (subsetsNbDelegations_spec claim pf).2,
    fun x => mem_setDifference⟩

/-- Witness for C1 at a concrete input: a claimed delegation set contained in
the proven one derives. -/
theorem C1_witness :
    delegateDerives
      ⟨("did:key:zSpace"), ⟨some [(("a"), ("bafy1")), (("b"), ("bafy2"))]⟩⟩
      ⟨("did:key:zSpace"), ⟨some [(("a"), ("bafy1")), (("b"), ("bafy2")), (("c"), ("bafy3"))]⟩⟩ =
      Res.ok :=
  ((C1_delegate_derives_subset _ _ rfl).1).mpr (by decide)

/-- Claim C2: for access/authorize (and access/confirm) capability pairs that
agree on `with` and `nb.iss` (and `nb.aud` for access/confirm), the
requested-abilities check accepts any claim when proof.nb.att contains an
entry whose `can` is the universal wildcard; otherwise it accepts iff every
`can` string of claim.nb.att also occurs among those of proof.nb.att, and
otherwise fails with a Failure naming exactly the escalated abilities. -/
theorem C2_att_subset (c p : AuthorizeCap) (c2 p2 : ConfirmCap)
    (hw : c.wth = p.wth) (hi : c.nb.iss = p.nb.iss)
    (hw2 : c2.wth = p2.wth) (hi2 : c2.nb.iss = p2.nb.iss) (ha2 : c2.nb.aud = p2.nb.aud) :
    (authorizeDerives c p = subsetCapabilities c.nb.att p.nb.att) ∧
    (confirmDerives c2 p2 = subsetCapabilities c2.nb.att p2.nb.att) ∧
    (("*") ∈ p.nb.att.map (fun a => a.can) → authorizeDerives c p = Res.ok) ∧
    (("*") ∉ p.nb.att.map (fun a => a.can) →
      (authorizeDerives c p = Res.ok ↔
        ∀ a ∈ c.nb.att.map (fun a => a.can), a ∈ p.nb.att.map (fun a => a.can)) ∧
      ((¬ ∀ a ∈ c.nb.att.map (fun a => a.can), a ∈ p.nb.att.map (fun a => a.can)) →
        authorizeDerives c p =
          Res.failure ("unauthorized nb.att.can " ++
            String.intercalate (", ")
              (setDifference (c.nb.att.map (fun a => a.can)) (p.nb.att.map (fun a => a.can)))))) ∧
    (∀ x, x ∈ setDifference (c.nb.att.map (fun a => a.can)) (p.nb.att.map (fun a => a.can)) ↔
      x ∈ c.nb.att.map (fun a => a.can) ∧ x ∉ p.nb.att.map (fun a => a.can)) ∧
    (("*") ∈ p2.nb.att.map (fun a => a.can) → confirmDerives c2 p2 = Res.ok) ∧
    (("*") ∉ p2.nb.att.map (fun a => a.can) →
      (confirmDerives c2 p2 = Res.ok ↔
        ∀ a ∈ c2.nb.att.map (fun a => a.can), a ∈ p2.nb.att.map (fun a => a.can)) ∧
      ((¬ ∀ a ∈ c2.nb.att.map (fun a => a.can), a ∈ p2.nb.att.map (fun a => a.can)) →
        confirmDerives c2 p2 =
          Res.failure ("unauthorized nb.att.can " ++
            String.intercalate (", ")
              (setDifference (c2.nb.att.map (fun a => a.can)) (p2.nb.att.map (fun a => a.can)))))) := by
  have hred1 := authorizeDerives_reduce c p hw hi
  have hred2 := confirmDerives_reduce c2 p2 hw2 hi2 ha2
  obtain ⟨hstar1, hrest1⟩ := subsetCapabilities_spec c.nb.att p.nb.att
  obtain ⟨hstar2, hrest2⟩ := subsetCapabilities_spec c2.nb.att p2.nb.att
  rw [hred1, hred2]
  exact ⟨rfl, rfl, hstar1, hrest1, fun x => mem_setDifference, hstar2, hrest2⟩

/-- Witness for C2 at a concrete input: the universal wildcard in the proof's
requested abilities absorbs a narrower request. -/
theorem C2_witness :
    authorizeDerives
      ⟨("did:key:zAgent"), ⟨("did:mailto:web.mail:alice"), [⟨("store/add")⟩]⟩⟩
      ⟨("did:key:zAgent"), ⟨("did:mailto:web.mail:alice"), [⟨("*")⟩]⟩⟩ = Res.ok :=
  (C2_att_subset
      ⟨("did:key:zAgent"), ⟨("did:mailto:web.mail:alice"), [⟨("store/add")⟩]⟩⟩
      ⟨("did:key:zAgent"), ⟨("did:mailto:web.mail:alice"), [⟨("*")⟩]⟩⟩
      ⟨("did:key:zS"), ⟨("did:mailto:web.mail:alice"), ("did:key:zAgent"), []⟩⟩
      ⟨("did:key:zS"), ⟨("did:mailto:web.mail:alice"), ("did:key:zAgent"), []⟩⟩
      rfl rfl rfl rfl rfl).2.2.1 (by decide)

/-- Claim C3: each override derivation rule (access/authorize,
access/confirm, access/delegate) only succeeds when the claim's `with`
literally equals the proof's, and a pair differing in `with` is rejected with
the `equalWith` failure before any other check, whatever the `nb` fields. -/
theorem C3_equalWith_first (c p : AuthorizeCap) (c2 p2 : ConfirmCap) (c3 p3 : DelegateCap) :
    (authorizeDerives c p = Res.ok → c.wth = p.wth) ∧
    (confirmDerives c2 p2 = Res.ok → c2.wth = p2.wth) ∧
    (delegateDerives c3 p3 = Res.ok → c3.wth = p3.wth) ∧
    (c.wth ≠ p.wth →
      authorizeDerives c p = Res.failure ("unauthorized: with mismatch")) ∧
    (c2.wth ≠ p2.wth →
      confirmDerives c2 p2 = Res.failure ("unauthorized: with mismatch")) ∧
    (c3.wth ≠ p3.wth →
      delegateDerives c3 p3 = Res.failure ("unauthorized: with mismatch")) := by
  have h1 : c.wth ≠ p.wth →
      authorizeDerives c p = Res.failure ("unauthorized: with mismatch") := by
    intro hne
    unfold authorizeDerives
    rw [equalWith_of_ne hne, orFail_failure]
  have h2 : c2.wth ≠ p2.wth →
      confirmDerives c2 p2 = Res.failure ("unauthorized: with mismatch") := by
    intro hne
    unfold confirmDerives
    rw [equalWith_of_ne hne, orFail_failure]
  have h3 : c3.wth ≠ p3.wth →
      delegateDerives c3 p3 = Res.failure ("unauthorized: with mismatch") := by
    intro hne
    unfold delegateDerives
    rw [equalWith_of_ne hne, orFail_failure]
  refine ⟨?_, ?_, ?_, h1, h2, h3⟩
  · intro hok
    by_contra hne
    rw [h1 hne] at hok
    exact Res.noConfusion hok
  · intro hok
    by_contra hne
    rw [h2 hne] at hok
    exact Res.noConfusion hok
  · intro hok
    by_contra hne
    rw [h3 hne] at hok
    exact Res.noConfusion hok

/-- Witness for C3 at a concrete input: differing `with` resources are
rejected with the `equalWith` failure even though every other field would
pass. -/
theorem C3_witness :
    authorizeDerives
      ⟨("did:key:zA"), ⟨("did:mailto:web.mail:alice"), [⟨("*")⟩]⟩⟩
      ⟨("did:key:zB"), ⟨("did:mailto:web.mail:alice"), [⟨("*")⟩]⟩⟩ =
      Res.failure ("unauthorized: with mismatch") :=
  (C3_equalWith_first _ _
      ⟨("did:key:zS"), ⟨("did:mailto:web.mail:alice"), ("did:key:zA"), []⟩⟩
      ⟨("did:key:zS"), ⟨("did:mailto:web.mail:alice"), ("did:key:zA"), []⟩⟩
      ⟨("did:key:zS"), ⟨some []⟩⟩ ⟨("did:key:zS"), ⟨some []⟩⟩).2.2.2.1 (by decide)

/-- A plain capability as seen by the default derivation rule: an ability
`can` and a resource `wth` (the `with` field). The `access` capability of the
source (`can: 'access/*'`) declares no `nb` and no `derives` override, so
pairs of such capabilities are compared by this rule. -/
structure SimpleCap where
  can : String
  wth : String
deriving DecidableEq, Repr

/-- Modelled from the spec: ability matching of the external validator (the
evaluator applying the default derivation rule is not under `src/`): an
ability matches itself, the top `"*"` matches anything, and a namespace
wildcard such as `access/*` matches any ability beginning with `access/`. -/
def canMatches (proofCan claimCan : String) : Bool :=
  claimCan == proofCan || proofCan == ("*") ||
    (List.isSuffixOf [('/' : Char), ('*' : Char)] proofCan.data &&
      List.isPrefixOf proofCan.data.dropLast claimCan.data)

/-- Modelled from the spec: the default derivation rule for capabilities
without an override - ok iff the resources are literally equal and the
proof's ability matches the claim's (wildcards allowed); such capabilities
carry no params to check. -/
def defaultDerives (claim pf : SimpleCap) : Res :=
  if claim.wth = pf.wth ∧ canMatches pf.can claim.can = true then Res.ok
  else Res.failure ("unauthorized: escalation")

/-- Claim C4 counterexample: inside requested-ability params the namespace
wildcard does not absorb. With equal `with` and `nb.iss`, a proof whose
`nb.att` requests `store/*` does not let a claim request `store/add`:
`derives` fails naming `store/add` as escalated, refuting "the wildcard
absorbs any narrower action, including inside requested-ability params"
(the source comments this limitation explicitly). -/
theorem C4_counterexample :
    authorizeDerives
      ⟨("did:key:zAgent"), ⟨("did:mailto:web.mail:alice"), [⟨("store/add")⟩]⟩⟩
      ⟨("did:key:zAgent"), ⟨("did:mailto:web.mail:alice"), [⟨("store/*")⟩]⟩⟩ =
      Res.failure ("unauthorized nb.att.can store/add") := by
  decide

/-- Claim C4 (amended): for capability pairs with equal resources where the
proof's action is the wildcard of the namespace containing the claim's
action, the default derivation rule succeeds regardless of params; inside
requested-ability params, however, only the universal wildcard absorbs any
claim - without it the claimed abilities must literally occur among the
proof's, so a namespace wildcard there grants nothing extra. -/
theorem C4_amended (c p : SimpleCap) (ca pa : AuthorizeCap)
    (hw : c.wth = p.wth) (hmatch : canMatches p.can c.can = true)
    (hwa : ca.wth = pa.wth) (hia : ca.nb.iss = pa.nb.iss) :
    defaultDerives c p = Res.ok ∧
    (("*") ∈ pa.nb.att.map (fun a => a.can) → authorizeDerives ca pa = Res.ok) ∧
    (("*") ∉ pa.nb.att.map (fun a => a.can) →
      (authorizeDerives ca pa = Res.ok ↔
        ∀ a ∈ ca.nb.att.map (fun a => a.can), a ∈ pa.nb.att.map (fun a => a.can))) := by
  have hred := authorizeDerives_reduce ca pa hwa hia
  obtain ⟨hstar, hrest⟩ := subsetCapabilities_spec ca.nb.att pa.nb.att
  refine ⟨?_, ?_, ?_⟩
  · unfold defaultDerives
    rw [if_pos ⟨hw, hmatch⟩]
  · intro hs
    rw [hred]
    exact hstar hs
  · intro hns
    rw [hred]
    exact (hrest hns).1

/-- Witness for the amended C4 at a concrete input: `store/*` absorbs
`store/add` at the action level under the default rule. -/
theorem C4_amended_witness :
    defaultDerives ⟨("store/add"), ("did:key:zSpace")⟩ ⟨("store/*"), ("did:key:zSpace")⟩ =
      Res.ok :=
  (C4_amended
      ⟨("store/add"), ("did:key:zSpace")⟩ ⟨("store/*"), ("did:key:zSpace")⟩
      ⟨("did:key:zA"), ⟨("did:mailto:web.mail:alice"), [⟨("*")⟩]⟩⟩
      ⟨("did:key:zA"), ⟨("did:mailto:web.mail:alice"), [⟨("*")⟩]⟩⟩
      rfl (by decide) rfl rfl).1

/-- UCAN expiration: a concrete Unix timestamp or the infinite expiration
(`exp: null`, written `Infinity` at the API). -/
inductive Expiry where
  | finite (t : Nat) : Expiry
  | infinite : Expiry
deriving DecidableEq, Repr

/-- A capability of an issued session delegation: ability, resource, and the
optional `nb.proof` Link (present only on attestations); Links are modelled
by their string form. -/
structure UcanCap where
  can : String
  wth : String
  nbProof : Option String
deriving DecidableEq, Repr

/-- A UCAN delegation as issued by the confirmation flow: issuer and audience
DIDs, expiration, capabilities. -/
structure Ucan where
  issuer : String
  audience : String
  expiration : Expiry
  capabilities : List UcanCap
deriving DecidableEq, Repr

/-- Modelled from the spec: on confirmation the orchestrator issues (a) an
authorization delegation - issuer = account, audience = requesting agent,
infinite expiration, the requested abilities narrowed to the `"*"` session
scope, i.e. resource `ucan:*` - and (b) an attestation by the service
authority whose sole capability is `ucan/attest` on the authority DID with
`nb.proof` = the Link of (a). The access-api confirmation handler is not
under `src/` (only its tests and the `session` capability declaration are);
`linkOf` abstracts content-addressing of a delegation. -/
def confirmSession (authority account agent : String)
    (att : List CapabilityRequest) (linkOf : Ucan → String) : Ucan × Ucan :=
  let authorization : Ucan :=
    { issuer := account, audience := agent, expiration := Expiry.infinite,
      capabilities := att.map (fun a => { can := a.can, wth := ("ucan:*"), nbProof := none }) }
  let attested : Ucan :=
    { issuer := authority, audience := agent, expiration := Expiry.infinite,
      capabilities := [⟨("ucan/attest"), authority, some (linkOf authorization)⟩] }
  (authorization, attested)

/-- Modelled from the spec: confirmation appends both issued delegations to
the pending store, keyed by the requesting agent's DID. -/
def confirmIntoStore (store : List (String × Ucan)) (authority account agent : String)
    (att : List CapabilityRequest) (linkOf : Ucan → String) : List (String × Ucan) :=
  let pair := confirmSession authority account agent att linkOf
  store ++ [(agent, pair.1), (agent, pair.2)]

/-- Modelled from the spec: `access/claim` by a DID returns the pending
delegations keyed to it and removes them from the pending store. -/
def claimDelegations (store : List (String × Ucan)) (audience : String) :
    List Ucan × List (String × Ucan) :=
  ((store.filter (fun e => e.1 == audience)).map Prod.snd,
    store.filter (fun e => ¬ e.1 == audience))

/-- Claim C5: when a pending authorization request from agent G for account A
with requested abilities `[{can:"*"}]` is confirmed, exactly two Delegations
become claimable by G: an authorization Delegation with issuer = A, audience
= G, infinite expiration and capabilities `[{can:"*", with:"ucan:*"}]`, and
an Attestation issued by the service authority whose sole capability is
`{can:"ucan/attest", with: authority DID, nb:{proof: Link of the
authorization Delegation}}`. -/
theorem C5_confirm_issues_two (store : List (String × Ucan))
    (authority account agent : String) (linkOf : Ucan → String)
    (hs : ∀ e ∈ store, e.1 ≠ agent) :
    (claimDelegations (confirmIntoStore store authority account agent [⟨("*")⟩] linkOf)
        agent).1 =
      [{ issuer := account, audience := agent, expiration := Expiry.infinite,
         capabilities := [⟨("*"), ("ucan:*"), none⟩] },
       { issuer := authority, audience := agent, expiration := Expiry.infinite,
         capabilities := [⟨("ucan/attest"), authority,
           some (linkOf { issuer := account, audience := agent,
                          expiration := Expiry.infinite,
                          capabilities := [⟨("*"), ("ucan:*"), none⟩] })⟩] }] := by
  have h0 : store.filter (fun e => e.1 == agent) = [] := by
    rw [List.filter_eq_nil_iff]
    intro a ha
    simp only [beq_iff_eq]
    exact hs a ha
  simp only [claimDelegations, confirmIntoStore, confirmSession, List.map_cons, List.map_nil]
  rw [List.filter_append, h0]
  simp

/-- Witness for C5 at a concrete input: confirmation for a concrete agent,
account and authority, over a store already holding an unrelated pending
delegation. -/
theorem C5_witness :
    (claimDelegations
        (confirmIntoStore
          [(("did:key:zOther"),
            { issuer := ("x"), audience := ("did:key:zOther"),
              expiration := Expiry.infinite, capabilities := [] })]
          ("did:web:web3.storage") ("did:mailto:dag.house:email") ("did:key:zAgent")
          [⟨("*")⟩] (fun _ => ("bafyAuthorization")))
        ("did:key:zAgent")).1 =
      [{ issuer := ("did:mailto:dag.house:email"), audience := ("did:key:zAgent"),
         expiration := Expiry.infinite,
         capabilities := [⟨("*"), ("ucan:*"), none⟩] },
       { issuer := ("did:web:web3.storage"), audience := ("did:key:zAgent"),
         expiration := Expiry.infinite,
         capabilities := [⟨("ucan/attest"), ("did:web:web3.storage"),
           some ("bafyAuthorization")⟩] }] :=
  C5_confirm_issues_two _ _ _ _ _ (by decide)

/-- An ed25519 signer as read by space.js: the 32-byte secret (the seed
`signer.secret`) and the signer's DID; signing itself is an external
collaborator. -/
structure EdSigner where
  secret : List Nat
  did : String
deriving DecidableEq, Repr

/-- The space `Model` of space.js / class `OwnedSpace`: a signer and a
human-readable name. -/
structure OwnedSpace where
  signer : EdSigner
  name : String
deriving DecidableEq, Repr

/-- The fields space.js passes to the external `delegate` constructor:
issuer signer, audience DID, capabilities, optional expiration (`none` when
the option was omitted because it was falsy), facts (the space-name fact). -/
structure SpaceDelegation where
  issuer : EdSigner
  audienceDid : String
  capabilities : List SimpleCap
  expiration : Option Expiry
  facts : List String
deriving DecidableEq, Repr

/-- `createRecovery` from space.js: delegates `{ with: signer.did(), can:
'*' }` from the space key to the account (`signer.withDID(account)`, whose
DID is the account DID), with `expiration: Infinity` and the space-name
fact. -/
def createRecovery (space : OwnedSpace) (account : String) : SpaceDelegation :=
  { issuer := space.signer,
    audienceDid := account,
    capabilities := [{ can := ("*"), wth := space.signer.did }],
    expiration := some Expiry.infinite,
    facts := [space.name] }

/-- `SESSION_LIFETIME` from space.js: the default authorization session is
valid for 1 year. -/
def SESSION_LIFETIME : Nat := 60 * 60 * 24 * 365

/-- `toCapabilities` from space.js: flattens an allow-map (subject DID to
ability/details entries) into `{can, with}` capabilities, keeping entries
with truthy details; details are modelled by their truthiness. -/
def toCapabilities (allow : List (String × List (String × Bool))) : List SimpleCap :=
  allow.foldl
    (fun capabilities e =>
      capabilities ++ (e.2.filter (fun a => a.2)).map (fun a => { can := a.1, wth := e.1 }))
    []

/-- `createAuthorization` from space.js: delegates the given access on the
space DID to the agent; `now` is the clock value read by `UCAN.now()`. When
the caller omits `expiration` it defaults to `now + SESSION_LIFETIME`, and a
falsy (zero) expiration omits the field from the delegate options
(`...(expiration ? { expiration } : {})`). -/
def createAuthorization (space : OwnedSpace) (agentDid : String)
    (accessMap : List (String × Bool)) (expirationArg : Option Expiry) (now : Nat) :
    SpaceDelegation :=
  let expiration := expirationArg.getD (Expiry.finite (now + SESSION_LIFETIME))
  { issuer := space.signer,
    audienceDid := agentDid,
    capabilities := toCapabilities [(space.signer.did, accessMap)],
    expiration := if expiration = Expiry.finite 0 then none else some expiration,
    facts := [space.name] }

/-- Claim C6: for every space S and account DID A, `createRecovery(S, A)`
returns a Delegation with issuer = S's signing key, audience = A, exactly one
capability with `with` = S's DID and `can` = "*" (full access), and infinite
expiration. -/
theorem C6_createRecovery (space : OwnedSpace) (account : String) :
    (createRecovery space account).issuer = space.signer ∧
    (createRecovery space account).audienceDid = account ∧
    (createRecovery space account).capabilities =
      [{ can := ("*"), wth := space.signer.did }] ∧
    (createRecovery space account).expiration = some Expiry.infinite :=
  ⟨rfl, rfl, rfl, rfl⟩

/-- Claim C7: `createAuthorization` called without an explicit expiration
returns a Delegation whose expiration is the current Unix timestamp plus
exactly 31536000 seconds, and that constant is `SESSION_LIFETIME` =
60*60*24*365 (one year). -/
theorem C7_createAuthorization_default_expiration (space : OwnedSpace) (agentDid : String)
    (accessMap : List (String × Bool)) (now : Nat) :
    (createAuthorization space agentDid accessMap none now).expiration =
      some (Expiry.finite (now + 31536000)) ∧
    SESSION_LIFETIME = 60 * 60 * 24 * 365 := by
  constructor
  · have hne : Expiry.finite (now + SESSION_LIFETIME) ≠ Expiry.finite 0 := by
      intro h
      injection h with h2
      unfold SESSION_LIFETIME at h2
      omega
    simp only [createAuthorization, Option.getD]
    rw [if_neg hne]
    norm_num [SESSION_LIFETIME]
  · rfl

/-- The `meta` record of a shared space: the optional `name` plus whatever
other fields the record carries; `withName` spreads the old meta and
overrides `name` (`{ ...this.meta, name }`). -/
structure SpaceMeta where
  name : Option String
  extra : List (String × String)
deriving DecidableEq, Repr

/-- Class `SharedSpace` from space.js: space DID `id`, the backing
delegation, and the meta record. -/
structure SharedSpace where
  id : String
  delegation : Ucan
  meta : SpaceMeta
deriving DecidableEq, Repr

/-- The `name` getter of `SharedSpace`: `this.meta.name ?? ''`. -/
def SharedSpace.name (s : SharedSpace) : String :=
  s.meta.name.getD ("")

/-- `SharedSpace.withName`: a new SharedSpace with the same id and
delegation, meta spread with the new name. -/
def SharedSpace.withName (s : SharedSpace) (name : String) : SharedSpace :=
  { id := s.id, delegation := s.delegation,
    meta := { name := some name, extra := s.meta.extra } }

/-- `OwnedSpace.withName`: a new OwnedSpace with the same signer and the new
name. -/
def OwnedSpace.withName (s : OwnedSpace) (name : String) : OwnedSpace :=
  { signer := s.signer, name := name }

/-- Claim C9: `withName` returns a new SharedSpace whose name is the given
one while id, delegation and every meta field other than name are unchanged;
likewise `OwnedSpace.withName` changes only the name and keeps the signer.
(The originals are immutable values in this embedding, so the no-mutation
part holds by construction.) -/
theorem C9_withName_frame (s : SharedSpace) (o : OwnedSpace) (n : String) :
    (s.withName n).name = n ∧
    (s.withName n).id = s.id ∧
    (s.withName n).delegation = s.delegation ∧
    (s.withName n).meta.extra = s.meta.extra ∧
    (o.withName n).name = n ∧
    (o.withName n).signer = o.signer :=
  ⟨rfl, rfl, rfl, rfl, rfl, rfl⟩

/-- `MemoryDriver` from the drivers module: a single optional record held in
memory; `save` stores a copy of the record, `load` returns nothing when no
record is stored or the stored record has no keys, `reset` clears it. The
record is modelled as a key/value list. -/
structure MemoryDriver (α : Type) where
  data : Option (List (String × α))
deriving DecidableEq, Repr

/-- The `MemoryDriver` constructor: `#data` starts undefined. -/
def MemoryDriver.new (α : Type) : MemoryDriver α := ⟨none⟩

/-- `reset()`: sets `#data` back to undefined. -/
def MemoryDriver.reset {α : Type} (_d : MemoryDriver α) : MemoryDriver α := ⟨none⟩

/-- `save(data)`: stores `{ ...data }`. -/
def MemoryDriver.save {α : Type} (_d : MemoryDriver α) (data : List (String × α)) :
    MemoryDriver α := ⟨some data⟩

/-- `load()`: returns undefined when `#data` is undefined or has zero keys,
else the stored record. -/
def MemoryDriver.load {α : Type} (d : MemoryDriver α) : Option (List (String × α)) :=
  match d.data with
  | none => none
  | some data => if data.length = 0 then none else some data

/-- Claim C10: `load()` returns nothing before any save and after `reset()`;
after `save(data)` with at least one key, `load()` returns a record equal to
`data`; after saving a record with zero keys, `load()` returns nothing.
(Object identity - the saved record being a copy - is outside a pure
embedding; equality is what is stated.) -/
theorem C10_memoryDriver (α : Type) (d : MemoryDriver α) (data : List (String × α))
    (hne : data ≠ []) :
    (MemoryDriver.new α).load = none ∧
    d.reset.load = none ∧
    (d.save data).load = some data ∧
    (d.save []).load = none := by
  refine ⟨rfl, rfl, ?_, rfl⟩
  show (if data.length = 0 then none else some data) = some data
  rw [if_neg]
  intro h
  exact hne (List.length_eq_zero.mp h)

/-- Witness for C10 at a concrete input: a one-key record round-trips through
`save`/`load`. -/
theorem C10_witness :
    (MemoryDriver.save (MemoryDriver.new String) [(("agent"), ("did:key:zAgent"))]).load =
      some [(("agent"), ("did:key:zAgent"))] :=
  (C10_memoryDriver String (MemoryDriver.new String) [(("agent"), ("did:key:zAgent"))]
    (by decide)).2.2.1

/-- Big-endian fixed-width bit decomposition: `natToBits w n` is the `w`
low bits of `n`, most significant first. -/
def natToBits : Nat → Nat → List Bool
  | 0, _ => []
  | w + 1, n => natToBits w (n / 2) ++ [n % 2 == 1]

/-- Big-endian interpretation of a bit string. -/
def bitsToNat (l : List Bool) : Nat :=
  l.foldl (fun a b => 2 * a + (if b then 1 else 0)) 0

/-- Concatenated fixed-width bit strings of a list of numbers: the bit
serialization of entropy bytes (`w = 8`) or of word indices (`w = 11`). -/
def natsToBits (w : Nat) : List Nat → List Bool
  | [] => []
  | n :: r => natToBits w n ++ natsToBits w r

/-- Splits a bit string into numbers of `k + 1` bits each, most significant
first; the `k + 1` form keeps the chunk size positive. -/
def chunkBits (k : Nat) : List Bool → List Nat
  | [] => []
  | b :: rest => bitsToNat (List.take (k + 1) (b :: rest)) :: chunkBits k (List.drop k rest)
termination_by l => l.length
decreasing_by
  simp only [List.length_drop, List.length_cons]
  omega

theorem natToBits_length (w : Nat) : ∀ n, (natToBits w n).length = w := by
  induction w with
  | zero => intro n; rfl
  | succ w ih =>
    intro n
    simp only [natToBits, List.length_append, ih, List.length_cons, List.length_nil]

theorem bitsToNat_concat (l : List Bool) (b : Bool) :
    bitsToNat (l ++ [b]) = 2 * bitsToNat l + (if b then 1 else 0) := by
  unfold bitsToNat
  rw [List.foldl_append]
  rfl

theorem bitsToNat_lt (l : List Bool) : bitsToNat l < 2 ^ l.length := by
  induction l using List.reverseRecOn with
  | nil => simp [bitsToNat]
  | append_singleton m b ih =>
    rw [bitsToNat_concat, List.length_append, List.length_cons, List.length_nil, pow_succ]
    cases b <;> simp <;> omega

theorem natToBits_bitsToNat (l : List Bool) : natToBits l.length (bitsToNat l) = l := by
  induction l using List.reverseRecOn with
  | nil => rfl
  | append_singleton m b ih =>
    rw [bitsToNat_concat, List.length_append, List.length_cons, List.length_nil]
    simp only [natToBits]
    have hdiv : (2 * bitsToNat m + (if b then 1 else 0)) / 2 = bitsToNat m := by
      cases b <;> simp <;> omega
    have hmod : (2 * bitsToNat m + (if b then 1 else 0)) % 2 = if b then 1 else 0 := by
      cases b <;> simp <;> omega
    rw [hdiv, hmod, ih]
    cases b <;> rfl

theorem bitsToNat_natToBits (w : Nat) : ∀ n, n < 2 ^ w → bitsToNat (natToBits w n) = n := by
  induction w with
  | zero =>
    intro n hn
    have : n = 0 := by simpa using hn
    simp [this, natToBits, bitsToNat]
  | succ w ih =>
    intro n hn
    have hhalf : n / 2 < 2 ^ w := by
      rw [pow_succ] at hn
      omega
    simp only [natToBits]
    rw [bitsToNat_concat, ih _ hhalf]
    rcases Nat.mod_two_eq_zero_or_one n with h2 | h2 <;> simp [h2] <;> omega

theorem natsToBits_length (w : Nat) : ∀ l : List Nat, (natsToBits w l).length = w * l.length := by
  intro l
  induction l with
  | nil => simp [natsToBits]
  | cons n r ih =>
    simp only [natsToBits, List.length_append, natToBits_length, ih, List.length_cons,
      Nat.mul_succ]
    omega

theorem chunkBits_nil (k : Nat) : chunkBits k [] = [] := by
  simp [chunkBits]

theorem natToBits_bitsToNat' {w : Nat} {l : List Bool} (h : l.length = w) :
    natToBits w (bitsToNat l) = l := by
  subst h
  exact natToBits_bitsToNat l

theorem chunkBits_cons (k : Nat) (l : List Bool) (h : l ≠ []) :
    chunkBits k l = bitsToNat (l.take (k + 1)) :: chunkBits k (l.drop (k + 1)) := by
  cases l with
  | nil => exact absurd rfl h
  | cons b rest =>
    rw [List.drop_succ_cons]
    simp only [chunkBits]

theorem natsToBits_chunkBits (k : Nat) :
    ∀ (n : Nat) (l : List Bool), l.length ≤ n → (k + 1) ∣ l.length →
      natsToBits (k + 1) (chunkBits k l) = l := by
  intro n
  induction n with
  | zero =>
    intro l hn _
    have : l = [] := List.eq_nil_of_length_eq_zero (Nat.le_zero.mp hn)
    rw [this, chunkBits_nil]
    rfl
  | succ n ih =>
    intro l hn hdvd
    cases l with
    | nil => rw [chunkBits_nil]; rfl
    | cons b rest =>
      have hpos : 0 < (b :: rest).length := by simp
      have hk1 : k + 1 ≤ (b :: rest).length := Nat.le_of_dvd hpos hdvd
      rw [chunkBits_cons k _ (by simp)]
      simp only [natsToBits]
      have htlen : ((b :: rest).take (k + 1)).length = k + 1 := by
        rw [List.length_take]
        omega
      have htake : natToBits (k + 1) (bitsToNat ((b :: rest).take (k + 1))) =
          (b :: rest).take (k + 1) := natToBits_bitsToNat' htlen
      have hrec : natsToBits (k + 1) (chunkBits k ((b :: rest).drop (k + 1))) =
          (b :: rest).drop (k + 1) := by
        apply ih
        · rw [List.length_drop]
          simp only [List.length_cons] at hn ⊢
          omega
        · rw [List.length_drop]
          exact Nat.dvd_sub' hdvd dvd_rfl
      rw [htake, hrec, List.take_append_drop]

theorem chunkBits_natsToBits (k : Nat) :
    ∀ ns : List Nat, (∀ x ∈ ns, x < 2 ^ (k + 1)) →
      chunkBits k (natsToBits (k + 1) ns) = ns := by
  intro ns
  induction ns with
  | nil => intro _; rw [show natsToBits (k + 1) [] = [] from rfl, chunkBits_nil]
  | cons n r ih =>
    intro hb
    have hlen : (natToBits (k + 1) n).length = k + 1 := natToBits_length _ _
    have hne : natsToBits (k + 1) (n :: r) ≠ [] := by
      simp only [natsToBits]
      intro h
      have := congrArg List.length h
      simp [hlen] at this
    show chunkBits k (natsToBits (k + 1) (n :: r)) = n :: r
    rw [chunkBits_cons k _ hne]
    simp only [natsToBits]
    rw [List.take_left' hlen, List.drop_left' hlen]
    rw [bitsToNat_natToBits (k + 1) n (hb n (by simp))]
    rw [ih (fun x hx => hb x (by simp [hx]))]

theorem chunkBits_mem_lt (k : Nat) :
    ∀ (n : Nat) (l : List Bool), l.length ≤ n → ∀ i ∈ chunkBits k l, i < 2 ^ (k + 1) := by
  intro n
  induction n with
  | zero =>
    intro l hn
    have : l = [] := List.eq_nil_of_length_eq_zero (Nat.le_zero.mp hn)
    rw [this, chunkBits_nil]
    intro i hi
    exact absurd hi (List.not_mem_nil i)
  | succ n ih =>
    intro l hn i hi
    cases l with
    | nil =>
      rw [chunkBits_nil] at hi
      exact absurd hi (List.not_mem_nil i)
    | cons b rest =>
      rw [chunkBits_cons k _ (by simp)] at hi
      rcases List.mem_cons.mp hi with h | h
      · have hlt : bitsToNat ((b :: rest).take (k + 1)) <
            2 ^ ((b :: rest).take (k + 1)).length := bitsToNat_lt _
        have hle : ((b :: rest).take (k + 1)).length ≤ k + 1 := by
          rw [List.length_take]
          omega
        rw [h]
        exact lt_of_lt_of_le hlt (Nat.pow_le_pow_right (by norm_num) hle)
      · apply ih ((b :: rest).drop (k + 1)) _ i h
        rw [List.length_drop]
        simp only [List.length_cons] at hn ⊢
        omega

/-- `entropyToMnemonic` of the external BIP39 library, modelled: the entropy
bytes are serialized to bits, the checksum bits are appended (`checksumFn`;
the leading SHA256 bits for the real library - the round trip holds for
every checksum function, so it is kept abstract), and the result is split
into 11-bit indices mapped through the 2048-word `wordlist`. -/
def entropyToMnemonic (wordlist : Nat → String) (checksumFn : List Nat → List Bool)
    (entropy : List Nat) : List String :=
  (chunkBits 10 (natsToBits 8 entropy ++ checksumFn entropy)).map wordlist

/-- The word lookup of `mnemonicToEntropy`: each word resolves to its
wordlist index, failing on an unknown word. -/
def wordsToIndices (wordToIndex : String → Option Nat) : List String → Option (List Nat)
  | [] => some []
  | w :: ws =>
    match wordToIndex w, wordsToIndices wordToIndex ws with
    | some i, some is => some (i :: is)
    | _, _ => none

/-- `mnemonicToEntropy` of the external BIP39 library, modelled: words are
resolved to 11-bit indices, the bit string splits into ENT = bits*32/33
entropy bits and the remaining checksum bits, the entropy bytes are rebuilt
and the checksum is recomputed and verified (failure on mismatch). -/
def mnemonicToEntropy (wordToIndex : String → Option Nat)
    (checksumFn : List Nat → List Bool) (mnemonic : List String) : Option (List Nat) :=
  (wordsToIndices wordToIndex mnemonic).bind (fun indices =>
    let bits := natsToBits 11 indices
    let entropy := chunkBits 7 (List.take (bits.length * 32 / 33) bits)
    if List.drop (bits.length * 32 / 33) bits = checksumFn entropy then some entropy
    else none)

/-- `toMnemonic` from space.js: the BIP39 mnemonic of the signer's 32-byte
secret (`signer.secret`). -/
def toMnemonic (wordlist : Nat → String) (checksumFn : List Nat → List Bool)
    (space : OwnedSpace) : List String :=
  entropyToMnemonic wordlist checksumFn space.signer.secret

/-- `ED25519.derive`, modelled: accepts a 32-byte secret and builds the
signer seeded by it; the DID is the function `didOf` of the secret (public
key derivation is the external collaborator). -/
def derive (didOf : List Nat → String) (secret : List Nat) : Option EdSigner :=
  if secret.length = 32 then some ⟨secret, didOf secret⟩ else none

/-- `fromMnemonic` from space.js: recovers the secret from the mnemonic
(`BIP39.mnemonicToEntropy`), derives the signer, and returns the imported
space under the given name. -/
def fromMnemonic (wordToIndex : String → Option Nat) (checksumFn : List Nat → List Bool)
    (didOf : List Nat → String) (mnemonic : List String) (name : String) :
    Option OwnedSpace :=
  (mnemonicToEntropy wordToIndex checksumFn mnemonic).bind (fun secret =>
    (derive didOf secret).map (fun signer => ⟨signer, name⟩))

/-- `signer.encode()`, modelled: the encoding is determined by the secret -
the seed bytes together with the public bytes `pubOf` derives from them. -/
def EdSigner.encode (pubOf : List Nat → List Nat) (s : EdSigner) : List Nat :=
  s.secret ++ pubOf s.secret

theorem wordsToIndices_map {wordlist : Nat → String} {wordToIndex : String → Option Nat}
    (hwi : ∀ i, i < 2048 → wordToIndex (wordlist i) = some i) :
    ∀ is : List Nat, (∀ i ∈ is, i < 2048) →
      wordsToIndices wordToIndex (is.map wordlist) = some is := by
  intro is
  induction is with
  | nil => intro _; rfl
  | cons i r ih =>
    intro hb
    simp only [List.map_cons, wordsToIndices]
    rw [hwi i (hb i (by simp)), ih (fun x hx => hb x (by simp [hx]))]

/-- The 24-word round trip: decoding an encoded 32-byte entropy recovers it,
for any checksum function producing 8 checksum bits. -/
theorem mnemonicToEntropy_entropyToMnemonic
    (wordlist : Nat → String) (wordToIndex : String → Option Nat)
    (checksumFn : List Nat → List Bool)
    (hwi : ∀ i, i < 2048 → wordToIndex (wordlist i) = some i)
    (entropy : List Nat) (hlen : entropy.length = 32)
    (hbytes : ∀ x ∈ entropy, x < 256) (hcs : (checksumFn entropy).length = 8) :
    mnemonicToEntropy wordToIndex checksumFn
      (entropyToMnemonic wordlist checksumFn entropy) = some entropy := by
  have hl : (natsToBits 8 entropy ++ checksumFn entropy).length = 264 := by
    rw [List.length_append, natsToBits_length, hlen, hcs]
  have hdvd : (10 + 1) ∣ (natsToBits 8 entropy ++ checksumFn entropy).length := by
    rw [hl]
    norm_num
  have hidx : ∀ i ∈ chunkBits 10 (natsToBits 8 entropy ++ checksumFn entropy), i < 2048 := by
    intro i hi
    have := chunkBits_mem_lt 10 (natsToBits 8 entropy ++ checksumFn entropy).length
      (natsToBits 8 entropy ++ checksumFn entropy) le_rfl i hi
    norm_num at this
    exact this
  unfold entropyToMnemonic mnemonicToEntropy
  rw [wordsToIndices_map hwi _ hidx]
  simp only [Option.some_bind]
  rw [natsToBits_chunkBits 10 (natsToBits 8 entropy ++ checksumFn entropy).length _ le_rfl hdvd]
  rw [hl]
  norm_num
  have hblen : (natsToBits 8 entropy).length = 256 := by
    rw [natsToBits_length, hlen]
  rw [List.take_left' hblen, List.drop_left' hblen]
  rw [chunkBits_natsToBits 7 entropy (by intro x hx; norm_num; exact hbytes x hx)]
  exact ⟨rfl, rfl⟩

/-- Claim C8: for every owned space S with a 32-byte secret,
`fromMnemonic(toMnemonic(S), {name})` yields a signer whose encoding equals
the encoding of S's signer - the BIP39 mnemonic round-trips the ed25519
secret exactly. The external wordlist and checksum are abstracted:
`wordToIndex` inverts `wordlist` on the 2048 indices, and `checksumFn` is
any 8-bit checksum of the entropy (the round trip holds for every such
checksum, SHA256 included). -/
theorem C8_mnemonic_roundtrip (wordlist : Nat → String) (wordToIndex : String → Option Nat)
    (checksumFn : List Nat → List Bool) (didOf : List Nat → String)
    (pubOf : List Nat → List Nat) (S : OwnedSpace) (name : String)
    (hwi : ∀ i, i < 2048 → wordToIndex (wordlist i) = some i)
    (hlen : S.signer.secret.length = 32)
    (hbytes : ∀ x ∈ S.signer.secret, x < 256)
    (hcs : (checksumFn S.signer.secret).length = 8) :
    ∃ T : OwnedSpace,
      fromMnemonic wordToIndex checksumFn didOf (toMnemonic wordlist checksumFn S) name =
        some T ∧
      T.signer.secret = S.signer.secret ∧
      T.signer.encode pubOf = S.signer.encode pubOf ∧
      T.name = name := by
  refine ⟨⟨⟨S.signer.secret, didOf S.signer.secret⟩, name⟩, ?_, rfl, ?_, rfl⟩
  · unfold fromMnemonic toMnemonic
    rw [mnemonicToEntropy_entropyToMnemonic wordlist wordToIndex checksumFn hwi
      S.signer.secret hlen hbytes hcs]
    simp only [Option.some_bind]
    unfold derive
    rw [if_pos hlen]
    rfl
  · unfold EdSigner.encode
    rfl

/-- Witness for C8 at a concrete input: a 32-byte zero secret, a wordlist
sending index i to the i-character word over 'a' (distinct words, inverted
by taking the length), and a constant 8-bit checksum. -/
theorem C8_witness :
    ∃ T : OwnedSpace,
      fromMnemonic (fun s => some s.length) (fun _ => List.replicate 8 false)
          (fun _ => ("did:key:zSpace"))
          (toMnemonic (fun i => String.mk (List.replicate i ('a' : Char)))
            (fun _ => List.replicate 8 false)
            ⟨⟨List.replicate 32 0, ("did:key:zSpace")⟩, ("test")⟩)
          ("import") = some T ∧
      T.signer.secret = (⟨⟨List.replicate 32 0, ("did:key:zSpace")⟩, ("test")⟩ :
        OwnedSpace).signer.secret ∧
      T.signer.encode (fun s => s) = (⟨⟨List.replicate 32 0, ("did:key:zSpace")⟩, ("test")⟩ :
        OwnedSpace).signer.encode (fun s => s) ∧
      T.name = ("import") :=
  C8_mnemonic_roundtrip (fun i => String.mk (List.replicate i ('a' : Char)))
    (fun s => some s.length) (fun _ => List.replicate 8 false)
    (fun _ => ("did:key:zSpace")) (fun s => s)
    ⟨⟨List.replicate 32 0, ("did:key:zSpace")⟩, ("test")⟩ ("import")
    (fun i _ => by simp [String.length])
    (by simp)
    (by intro x hx; rw [List.eq_of_mem_replicate hx]; norm_num)
    (by simp)

end W3
